import Mathlib

/-!
Verification development for the likelib node core.

The C++ sources are shallowly embedded: byte sequences are lists of naturals
(one entry per byte), machine integers are naturals with explicit modular
reduction where the code truncates, fallible operations return
`Option`/`Except`, and the in-place mutations of the C++ code are explicit
state passing.  Components of the repository whose sources are not available
(the serialization archives, the `lk` account manager, `bc::Blockchain`,
`lk::calcCost`) are modelled from the specification; each such definition
carries a doc comment saying so.  Cryptographic primitives and the EVM are
treated as oracles: they are parameters of the definitions that use them.
-/

namespace base

/-- A byte sequence (`base::Bytes`): a list of naturals, one per byte. -/
abbrev Bytes := List Nat

/-- Fixed-width big-endian encoding of an integer (`base::toBytes<T>` and the
integer rule of the codec: integers are big-endian, fixed-width by declared
type).  `natToBytesBE w n` produces exactly `w` bytes, most significant
first; bytes are reduced modulo 256 as the machine representation is. -/
def natToBytesBE : Nat → Nat → Bytes
  | 0, _ => []
  | w + 1, n => natToBytesBE w (n / 256) ++ [n % 256]

/-- Big-endian decoding of a byte sequence (`base::fromBytes<T>`). -/
def fromBytesBE (bs : Bytes) : Nat :=
  bs.foldl (fun acc b => acc * 256 + b) 0

/-- Reading exactly `k` bytes from the front of a stream; fails on truncation
(the codec raises `BadEncoding` when a length field exceeds the remaining
buffer). -/
def readBytes (k : Nat) (input : Bytes) : Option (Bytes × Bytes) :=
  if k ≤ input.length then some (input.take k, input.drop k) else none

/-- Modelled from the spec: the serialization archive sources are not among
the provided files.  A fixed-width integer field is written big-endian with
the declared width (§4.1). -/
def serializeFixed (w n : Nat) : Bytes := natToBytesBE w n

/-- Modelled from the spec: reading a fixed-width big-endian integer field. -/
def deserializeFixed (w : Nat) (input : Bytes) : Option (Nat × Bytes) :=
  (readBytes w input).map (fun p => (fromBytesBE p.1, p.2))

/-- Modelled from the spec: a variable-length byte sequence or string is
prefixed with a 32-bit big-endian length (§4.1). -/
def serializeBytes (bs : Bytes) : Bytes := natToBytesBE 4 bs.length ++ bs

/-- Modelled from the spec: reading a length-prefixed byte sequence. -/
def deserializeBytesField (input : Bytes) : Option (Bytes × Bytes) := do
  let (len, rest) ← deserializeFixed 4 input
  readBytes len rest

/-- The error taxonomy relevant to the embedded code paths: `base::Error`
raised by logic checks, balance-subtraction underflow of the checked
arithmetic, and the address collision of contract creation. -/
inductive Error
  | logicError
  | underflow
  | alreadyExists
deriving DecidableEq

/-- The configuration constants of `base::config` used by the core. -/
structure Config where
  maxTransactionsInBlock : Nat
  emissionValue : Nat

end base

namespace net

/-- `net::Peer::send`: the payload is prefixed with
`static_cast<std::uint16_t>(data.size())` — the size reduced modulo 2^16 —
written as a 2-byte big-endian integer, then the payload bytes follow. -/
def Peer.send (data : base.Bytes) : base.Bytes :=
  base.natToBytesBE 2 (data.length % 65536) ++ data

/-- `net::Peer::receive`: read 2 bytes, decode them as a big-endian length,
then read that many payload bytes.  Returns the payload and the unread rest
of the stream. -/
def Peer.receive (stream : base.Bytes) : Option (base.Bytes × base.Bytes) := do
  let (lenBytes, rest) ← base.readBytes 2 stream
  base.readBytes (base.fromBytesBE lenBytes) rest

end net

namespace base

/-- Association-list lookup: the value stored under the first matching key.
Used to model the byte-keyed persistent database and the in-memory maps of
the core. -/
def getAssoc {κ β : Type} [DecidableEq κ] : List (κ × β) → κ → Option β
  | [], _ => none
  | (k, v) :: rest, key => if key = k then some v else getAssoc rest key

/-- Association-list insert-or-assign: replaces the value under the first
matching key, or appends a fresh entry.  This is the common semantics of
`std::map` assignment and of a `put` on the byte-keyed database. -/
def setAssoc {κ β : Type} [DecidableEq κ] : List (κ × β) → κ → β → List (κ × β)
  | [], key, v => [(key, v)]
  | (k, w) :: rest, key, v =>
    if key = k then (key, v) :: rest else (k, w) :: setAssoc rest key v

end base

namespace bc

/-- The anonymous `DataType` enum of database_manager.cpp.  It has exactly
three values: SYSTEM = 1, BLOCK = 2, PREVIOUS_BLOCK_HASH = 3; the source
defines no depth-index and no transaction-index key type. -/
def DataType.SYSTEM : Nat := 1

/-- Key-type byte for a block body stored by hash. -/
def DataType.BLOCK : Nat := 2

/-- Key-type byte for the parent link of a block. -/
def DataType.PREVIOUS_BLOCK_HASH : Nat := 3

/-- `toBytes(DataType, key)` of database_manager.cpp: a database key is the
type byte followed by the raw key bytes. -/
def dbKey (t : Nat) (key : base.Bytes) : base.Bytes := t :: key

/-- `LAST_BLOCK_HASH_KEY`: the system key holding the hash of the top block. -/
def LAST_BLOCK_HASH_KEY : base.Bytes :=
  dbKey DataType.SYSTEM ("last_block_hash".toList.map Char.toNat)

/-- The part of `bc::Block` that `DatabaseManager::addBlock` reads: the hash
of the previous block.  The full serialized body is supplied by an oracle. -/
structure StoredBlock where
  prevHash : base.Bytes
deriving DecidableEq

/-- `bc::DatabaseManager`: the byte-keyed persistent map plus the cached
hash of the last block. -/
structure DatabaseManager where
  db : List (base.Bytes × base.Bytes)
  lastBlockHash : base.Bytes
deriving DecidableEq

/-- `DatabaseManager::addBlock`: if the block-body key is already present,
return without any write; otherwise write the block body under its hash,
the parent link under the hash, and the new last-block hash under the
system key, then refresh the cached last-block hash.  `blockBytes` stands
for `base::toBytes(block)`, whose serializer is an external oracle here. -/
def DatabaseManager.addBlock (blockBytes : StoredBlock → base.Bytes)
    (m : DatabaseManager) (blockHash : base.Bytes) (block : StoredBlock) :
    DatabaseManager :=
  if (base.getAssoc m.db (dbKey DataType.BLOCK blockHash)).isSome then m
  else
    { db := base.setAssoc
        (base.setAssoc
          (base.setAssoc m.db (dbKey DataType.BLOCK blockHash) (blockBytes block))
          (dbKey DataType.PREVIOUS_BLOCK_HASH blockHash) block.prevHash)
        LAST_BLOCK_HASH_KEY blockHash
      lastBlockHash := blockHash }

/-- `DatabaseManager::findBlock`, restricted to the stored body bytes. -/
def DatabaseManager.findBlockData (m : DatabaseManager) (blockHash : base.Bytes) :
    Option base.Bytes :=
  base.getAssoc m.db (dbKey DataType.BLOCK blockHash)

end bc

namespace bc

/-- The payload of a non-null `bc::Sign`: the sender RSA public key (its
`toBytes` form) and the RSA-encrypted transaction hash. -/
structure SignData where
  senderPublicKey : base.Bytes
  rsaEncryptedHash : base.Bytes
deriving DecidableEq

/-- `bc::Sign`: either null or a (public key, encrypted hash) pair. -/
abbrev Sign := Option SignData

/-- `bc::Transaction` as laid out in bc/transaction.cpp: sender, receiver,
amount, timestamp (32-bit seconds), fee and an optional signature.  This
version of the type has no data field.  Addresses are the raw bytes of the
base64 address string; Balance is modelled from the spec as an unsigned
256-bit integer since bc/types.hpp is not among the sources. -/
structure Transaction where
  fromAddress : base.Bytes
  toAddress : base.Bytes
  amount : Nat
  timestamp : Nat
  fee : Nat
  sign : Sign
deriving DecidableEq

/-- The `bc::Transaction` constructor: raises `base::LogicError` whenever
the amount equals zero (unconditionally; the type has no data field that
could exempt contract calls). -/
def Transaction.create (fromAddress toAddress : base.Bytes) (amount timestamp fee : Nat)
    (sign : Sign) : Except base.Error Transaction :=
  if amount = 0 then .error .logicError
  else .ok ⟨fromAddress, toAddress, amount, timestamp, fee, sign⟩

/-- `Sign::serialize`: a 1-byte tag — 0 for a null sign; 1 followed by the
serialized public key and the length-prefixed encrypted hash otherwise. -/
def Sign.serialize : Sign → base.Bytes
  | none => [0]
  | some d => [1] ++ base.serializeBytes d.senderPublicKey
      ++ base.serializeBytes d.rsaEncryptedHash

/-- `Sign::deserialize`: read the tag byte; a non-zero tag is followed by
the public key and the encrypted hash. -/
def Sign.deserialize (input : base.Bytes) : Option (Sign × base.Bytes) :=
  match input with
  | [] => none
  | flag :: rest =>
    if flag ≠ 0 then do
      let (pk, r1) ← base.deserializeBytesField rest
      let (eh, r2) ← base.deserializeBytesField r1
      some (some ⟨pk, eh⟩, r2)
    else
      some (none, rest)

/-- `Transaction::serializeHeader`: sender, receiver, amount, timestamp and
fee in declared order.  Addresses are strings (length-prefixed bytes),
amount and fee are 32-byte big-endian, the timestamp is the 32-bit integer
written by base/time.cpp. -/
def Transaction.serializeHeader (tx : Transaction) : base.Bytes :=
  base.serializeBytes tx.fromAddress ++ base.serializeBytes tx.toAddress
    ++ base.serializeFixed 32 tx.amount ++ base.serializeFixed 4 tx.timestamp
    ++ base.serializeFixed 32 tx.fee

/-- `Transaction::serialize`: the header followed by the signature. -/
def Transaction.serialize (tx : Transaction) : base.Bytes :=
  tx.serializeHeader ++ Sign.serialize tx.sign

/-- `Transaction::deserialize`: fields in header order, then the signature,
then the checked constructor (which rejects a zero amount). -/
def Transaction.deserialize (input : base.Bytes) : Option (Transaction × base.Bytes) := do
  let (fromAddress, r1) ← base.deserializeBytesField input
  let (toAddress, r2) ← base.deserializeBytesField r1
  let (amount, r3) ← base.deserializeFixed 32 r2
  let (timestamp, r4) ← base.deserializeFixed 4 r3
  let (fee, r5) ← base.deserializeFixed 32 r4
  let (sign, r6) ← Sign.deserialize r5
  match Transaction.create fromAddress toAddress amount timestamp fee sign with
  | .error _ => none
  | .ok tx => some (tx, r6)

end bc

namespace lk

/-- An account address.  Addresses are opaque identifiers here; the claims
settled below do not depend on their 20-byte derivation, which stays behind
the oracle. -/
abbrev Address := Nat

/-- A SHA-256 digest, likewise opaque. -/
abbrev Hash := Nat

/-- `lk::Address::null()`: the sentinel address denoting contract creation
as a transaction recipient. -/
def NULL_ADDRESS : Address := 0

/-- `lk::AccountType`. -/
inductive AccountType
  | CLIENT
  | CONTRACT
deriving DecidableEq

/-- `lk::AccountState`: account type, balance, the list of hashes of sent
transactions, the runtime code (empty for clients) and the contract
storage. -/
structure AccountState where
  accountType : AccountType
  balance : Nat
  txHashes : List Hash
  runtimeCode : base.Bytes
  storage : List (Nat × base.Bytes)
deriving DecidableEq

/-- The account created on first access to an unknown address: a CLIENT
with zero balance (spec §4.4). -/
def defaultAccount : AccountState := ⟨.CLIENT, 0, [], [], []⟩

/-- The in-memory map of `lk::StateManager`: address to account state. -/
abbrev StateMap := List (Address × AccountState)

/-- The current account state under an address; a previously unknown
address reads as the default CLIENT account, which is what
`StateManager::getAccount` creates. -/
def getAccount (s : StateMap) (a : Address) : AccountState :=
  (base.getAssoc s a).getD defaultAccount

/-- `StateManager::hasAccount`. -/
def hasAccount (s : StateMap) (a : Address) : Bool :=
  (base.getAssoc s a).isSome

/-- The balance under an address (zero for an absent account). -/
def getBalanceOf (s : StateMap) (a : Address) : Nat :=
  (getAccount s a).balance

/-- A mutation through the reference returned by `getAccount`: the entry is
created on first access and then updated in place. -/
def modifyAccount (s : StateMap) (a : Address) (f : AccountState → AccountState) :
    StateMap :=
  base.setAssoc s a (f (getAccount s a))

/-- A pure `getAccount` call on a previously unknown address still creates
the CLIENT entry; this models such an access. -/
def touchAccount (s : StateMap) (a : Address) : StateMap :=
  if hasAccount s a then s else base.setAssoc s a defaultAccount

/-- `AccountState::addBalance`. -/
def addBalance (s : StateMap) (a : Address) (v : Nat) : StateMap :=
  modifyAccount s a (fun st => { st with balance := st.balance + v })

/-- `AccountState::subBalance`: the arithmetic is checked (spec §3), so an
insufficient balance raises instead of wrapping. -/
def subBalance (s : StateMap) (a : Address) (v : Nat) : Except base.Error StateMap :=
  if v ≤ (getAccount s a).balance then
    .ok (modifyAccount s a (fun st => { st with balance := st.balance - v }))
  else .error .underflow

/-- `AccountState::addTransactionHash`. -/
def addTransactionHash (s : StateMap) (a : Address) (h : Hash) : StateMap :=
  modifyAccount s a (fun st => { st with txHashes := st.txHashes ++ [h] })

/-- `AccountState::setRuntimeCode`. -/
def setRuntimeCode (s : StateMap) (a : Address) (code : base.Bytes) : StateMap :=
  modifyAccount s a (fun st => { st with runtimeCode := code })

/-- Modelled from the spec: `StateManager::tryTransferMoney` is not among
the sources; it succeeds iff the sender balance suffices, atomically
decrementing the sender and incrementing the receiver (§4.4). -/
def tryTransferMoney (s : StateMap) (f t : Address) (amount : Nat) : Option StateMap :=
  match subBalance s f amount with
  | .error _ => none
  | .ok s1 => some (addBalance s1 t amount)

/-- Modelled from the spec: `StateManager::createContractAccount` is not
among the sources; the contract address is derived deterministically from
the creator and the code hash (behind the `mkAddr` oracle), and creation
fails with AlreadyExists on a collision (§4.4). -/
def createContractAccount (mkAddr : Address → Hash → Address) (s : StateMap)
    (creator : Address) (codeHash : Hash) : Except base.Error (Address × StateMap) :=
  let addr := mkAddr creator codeHash
  if hasAccount s addr then .error .alreadyExists
  else .ok (addr, base.setAssoc s addr { defaultAccount with accountType := .CONTRACT })

/-- `lk::Transaction` as used by core/core.cpp: sender, receiver, amount,
fee, timestamp, data and an optional signature (public key plus encrypted
hash, as in bc/transaction.cpp). -/
structure Transaction where
  fromAddress : Address
  toAddress : Address
  amount : Nat
  fee : Nat
  timestamp : Nat
  data : base.Bytes
  sign : Option bc.SignData
deriving DecidableEq

/-- `TransactionStatus::StatusCode`. -/
inductive StatusCode
  | Pending
  | Success
  | Revert
  | Failed
  | NotEnoughBalance
  | BadSign
  | BadQueryForm
deriving DecidableEq

/-- `TransactionStatus::ActionType`. -/
inductive ActionType
  | None
  | Transfer
  | ContractCreation
  | ContractCall
deriving DecidableEq

/-- `lk::TransactionStatus`: status code, action type, remaining gas and a
message string. -/
structure TransactionStatus where
  code : StatusCode
  action : ActionType
  gasLeft : Nat
  message : String
deriving DecidableEq

/-- `lk::Block` as constructed in core/core.cpp: depth, previous hash,
timestamp, coinbase and the ordered transactions. -/
structure Block where
  depth : Nat
  prevHash : Hash
  timestamp : Nat
  coinbase : Address
  transactions : List Transaction
deriving DecidableEq

/-- The cryptographic primitives and encoders the core calls, treated as
oracles: transaction hashing, the header hash signed by the sender, SHA-256
of contract data, contract-address derivation, address derivation from a
public key, RSA decryption, block hashing, and the base58/base64 renderings
used in status messages. -/
structure Oracle where
  hashTx : Transaction → Hash
  hashTxData : Transaction → base.Bytes
  sha256data : base.Bytes → Hash
  mkContractAddress : Address → Hash → Address
  addressFromPublicKey : base.Bytes → Address
  decrypt : base.Bytes → base.Bytes → base.Bytes
  hashBlock : Block → Hash
  base58render : Address → String
  base64render : base.Bytes → String

/-- `Transaction::checkSign` (bc/transaction.cpp): false on a null sign;
false when the sender address differs from the one derived from the
embedded public key; otherwise the decrypted hash must equal the hash of
the transaction header. -/
def Transaction.checkSign (orc : Oracle) (tx : Transaction) : Bool :=
  match tx.sign with
  | none => false
  | some s =>
    if tx.fromAddress ≠ orc.addressFromPublicKey s.senderPublicKey then false
    else decide (orc.decrypt s.senderPublicKey s.rsaEncryptedHash = orc.hashTxData tx)

/-- The three-way branch the executor takes on an EVM result status. -/
inductive VmStatusCode
  | success
  | revert
  | other
deriving DecidableEq

/-- The part of `evmc::result` the executor reads. -/
structure VmResult where
  statusCode : VmStatusCode
  gasLeft : Nat
  output : base.Bytes

/-- The `evmc_message` the executor builds: gas (the transaction fee),
sender, destination, value, input data and the code to run. -/
structure VmCall where
  gas : Nat
  sender : Address
  destination : Address
  value : Nat
  inputData : base.Bytes
  code : base.Bytes

/-- The EVM as an oracle: given a call and the speculative state snapshot
it may read and mutate through the host callbacks, it produces a result
and the possibly mutated snapshot. -/
abbrev Vm := VmCall → StateMap → VmResult × StateMap

/-- The `tx-hash to status` map of the core. -/
abbrev Outputs := List (Hash × TransactionStatus)

/-- `Core::addTransactionOutput`: insert or overwrite the status stored
under the transaction hash. -/
def addTransactionOutput (outs : Outputs) (h : Hash) (st : TransactionStatus) : Outputs :=
  base.setAssoc outs h st

/-- `Core::getTransactionOutput`: the stored status if any; otherwise a
`Failed/None/0` status — the result is an engaged optional in both
branches. -/
def Core.getTransactionOutput (outs : Outputs) (h : Hash) : Option TransactionStatus :=
  match base.getAssoc outs h with
  | some st => some st
  | none => some ⟨.Failed, .None, 0, ""⟩

/-- Which return site of `tryPerformTransaction` produced the result:
`committed` when the snapshot was applied, `discarded` when the function
returned leaving canonical balances untouched, `charged fee gasLeft` for
the REVERT / unknown-VM-code sites that debit the sender by `gasLeft` and
credit the coinbase with `fee - gasLeft` on the canonical state, and
`subFailed` when a balance subtraction lacked funds and the resulting
error was caught as a Failed status. -/
inductive TxOutcome
  | committed
  | discarded
  | charged (fee gasLeft : Nat)
  | subFailed
deriving DecidableEq

/-- The change a return site makes to the total of all balances. -/
def TxOutcome.delta : TxOutcome → Int
  | charged f g => (f : Int) - 2 * g
  | _ => 0

/-- `Core::tryPerformTransaction` (core/core.cpp), instrumented with the
return site taken.  The canonical state is `s`; the tx-output map is
`outs`.  The snapshot is an explicit copy; `applyChanges` is the wholesale
adoption of the snapshot.  Where the source computes
`tx.getFee() - eval_result.gas_left`, natural truncated subtraction is
used; the two differ only when the VM returns more gas than it was given.
A `base::Error` escaping the branches that have no try/catch (the fee
subtraction of the non-creation branch) propagates as `.error`. -/
def Core.tryPerformTransactionE (orc : Oracle) (vm : Vm) (s : StateMap)
    (outs : Outputs) (tx : Transaction) (blk : Block) :
    Except base.Error (StateMap × Outputs × TxOutcome) :=
  let transactionHash := orc.hashTx tx
  let s0 := addTransactionHash s tx.fromAddress transactionHash
  if tx.toAddress = NULL_ADDRESS then
    match subBalance s0 tx.fromAddress tx.fee with
    | .error _ =>
      .ok (s0, addTransactionOutput outs transactionHash
        ⟨.Failed, .ContractCreation, tx.fee, ""⟩, .subFailed)
    | .ok txm1 =>
      let contractDataHash := orc.sha256data tx.data
      match createContractAccount orc.mkContractAddress txm1 tx.fromAddress contractDataHash with
      | .error _ =>
        .ok (s0, addTransactionOutput outs transactionHash
          ⟨.Failed, .ContractCreation, tx.fee, ""⟩, .discarded)
      | .ok (contractAddress, txm2) =>
        match tryTransferMoney txm2 tx.fromAddress contractAddress tx.amount with
        | none =>
          .ok (s0, addTransactionOutput outs transactionHash
            ⟨.NotEnoughBalance, .ContractCreation, tx.fee, ""⟩, .discarded)
        | some txm3 =>
          let call : VmCall := ⟨tx.fee, tx.fromAddress, contractAddress, tx.amount, [], tx.data⟩
          let res := (vm call txm3).1
          let txm4 := (vm call txm3).2
          match res.statusCode with
          | .success =>
            let txm5 := setRuntimeCode txm4 contractAddress res.output
            let outs1 := addTransactionOutput outs transactionHash
              ⟨.Success, .ContractCreation, res.gasLeft, orc.base58render contractAddress⟩
            let txm6 := addBalance txm5 blk.coinbase (tx.fee - res.gasLeft)
            let txm7 := addBalance txm6 tx.fromAddress res.gasLeft
            .ok (txm7, outs1, .committed)
          | .revert =>
            let outs1 := addTransactionOutput outs transactionHash
              ⟨.Revert, .ContractCreation, res.gasLeft, ""⟩
            match subBalance s0 tx.fromAddress res.gasLeft with
            | .error _ =>
              .ok (s0, addTransactionOutput outs1 transactionHash
                ⟨.Failed, .ContractCreation, tx.fee, ""⟩, .subFailed)
            | .ok s1 =>
              .ok (addBalance s1 blk.coinbase (tx.fee - res.gasLeft), outs1,
                .charged tx.fee res.gasLeft)
          | .other =>
            let outs1 := addTransactionOutput outs transactionHash
              ⟨.BadQueryForm, .ContractCreation, res.gasLeft, ""⟩
            match subBalance s0 tx.fromAddress res.gasLeft with
            | .error _ =>
              .ok (s0, addTransactionOutput outs1 transactionHash
                ⟨.Failed, .ContractCreation, tx.fee, ""⟩, .subFailed)
            | .ok s1 =>
              .ok (addBalance s1 blk.coinbase (tx.fee - res.gasLeft), outs1,
                .charged tx.fee res.gasLeft)
  else
    let s1 := touchAccount s0 tx.toAddress
    match subBalance s0 tx.fromAddress tx.fee with
    | .error e => .error e
    | .ok txm1 =>
      if (getAccount txm1 tx.toAddress).accountType = AccountType.CONTRACT then
        if tx.data.isEmpty then
          .ok (s1, addTransactionOutput outs transactionHash
            ⟨.BadQueryForm, .ContractCall, tx.fee, ""⟩, .discarded)
        else
          match (if 0 < tx.amount then tryTransferMoney txm1 tx.fromAddress tx.toAddress tx.amount
                 else some txm1) with
          | none =>
            .ok (s1, addTransactionOutput outs transactionHash
              ⟨.NotEnoughBalance, .ContractCall, tx.fee, ""⟩, .discarded)
          | some txm2 =>
            let code := (getAccount txm2 tx.toAddress).runtimeCode
            let call : VmCall := ⟨tx.fee, tx.fromAddress, tx.toAddress, tx.amount, tx.data, code⟩
            let res := (vm call txm2).1
            let txm3 := (vm call txm2).2
            match res.statusCode with
            | .success =>
              let outs1 := addTransactionOutput outs transactionHash
                ⟨.Success, .ContractCall, res.gasLeft, orc.base64render res.output⟩
              let txm4 := addBalance txm3 blk.coinbase (tx.fee - res.gasLeft)
              let txm5 := addBalance txm4 tx.fromAddress res.gasLeft
              .ok (txm5, outs1, .committed)
            | .revert =>
              let outs1 := addTransactionOutput outs transactionHash
                ⟨.Revert, .ContractCall, res.gasLeft, ""⟩
              match subBalance s1 tx.fromAddress res.gasLeft with
              | .error _ =>
                .ok (s1, addTransactionOutput outs1 transactionHash
                  ⟨.Failed, .ContractCall, tx.fee, ""⟩, .subFailed)
              | .ok s2 =>
                .ok (addBalance s2 blk.coinbase (tx.fee - res.gasLeft), outs1,
                  .charged tx.fee res.gasLeft)
            | .other =>
              let outs1 := addTransactionOutput outs transactionHash
                ⟨.BadQueryForm, .ContractCall, res.gasLeft, ""⟩
              match subBalance s1 tx.fromAddress res.gasLeft with
              | .error _ =>
                .ok (s1, addTransactionOutput outs1 transactionHash
                  ⟨.Failed, .ContractCall, tx.fee, ""⟩, .subFailed)
              | .ok s2 =>
                .ok (addBalance s2 blk.coinbase (tx.fee - res.gasLeft), outs1,
                  .charged tx.fee res.gasLeft)
      else
        match tryTransferMoney txm1 tx.fromAddress tx.toAddress tx.amount with
        | none =>
          .ok (s1, addTransactionOutput outs transactionHash
            ⟨.NotEnoughBalance, .Transfer, tx.fee, ""⟩, .discarded)
        | some txm2 =>
          let outs1 := addTransactionOutput outs transactionHash
            ⟨.Success, .Transfer, 0, ""⟩
          .ok (addBalance txm2 blk.coinbase tx.fee, outs1, .committed)

/-- `Core::tryPerformTransaction`: the observable part of the instrumented
executor. -/
def Core.tryPerformTransaction (orc : Oracle) (vm : Vm) (s : StateMap)
    (outs : Outputs) (tx : Transaction) (blk : Block) :
    Except base.Error (StateMap × Outputs) :=
  (Core.tryPerformTransactionE orc vm s outs tx blk).map (fun r => (r.1, r.2.1))

/-- The executor run over the transactions of a block in order; an escaped
error aborts the remainder, as the uncaught exception would. -/
def Core.performAll (orc : Oracle) (vm : Vm) (blk : Block) :
    StateMap → Outputs → List Transaction →
    Except base.Error (StateMap × Outputs × List TxOutcome)
  | s, outs, [] => .ok (s, outs, [])
  | s, outs, tx :: rest =>
    match Core.tryPerformTransactionE orc vm s outs tx blk with
    | .error e => .error e
    | .ok (s', outs', eff) =>
      match Core.performAll orc vm blk s' outs' rest with
      | .error e => .error e
      | .ok (s'', outs'', effs) => .ok (s'', outs'', eff :: effs)

/-- `Core::applyBlockTransactions`, instrumented: credit the coinbase with
`BC_EMISSION_VALUE`, then perform every transaction of the block in
order. -/
def Core.applyBlockTransactionsE (cfg : base.Config) (orc : Oracle) (vm : Vm)
    (s : StateMap) (outs : Outputs) (block : Block) :
    Except base.Error (StateMap × Outputs × List TxOutcome) :=
  Core.performAll orc vm block
    (addBalance s block.coinbase cfg.emissionValue) outs block.transactions

/-- `Core::applyBlockTransactions`: the observable part. -/
def Core.applyBlockTransactions (cfg : base.Config) (orc : Oracle) (vm : Vm)
    (s : StateMap) (outs : Outputs) (block : Block) :
    Except base.Error (StateMap × Outputs) :=
  (Core.applyBlockTransactionsE cfg orc vm s outs block).map (fun r => (r.1, r.2.1))

/-- Modelled from the spec: `bc::Blockchain` is not among the sources.  It
stores blocks by hash, caches the top block, and indexes the hashes of
stored transactions (§4.3). -/
structure Chain where
  blocks : List (Hash × Block)
  top : Block
  txHashes : List Hash

/-- `Blockchain::findBlock`: lookup by hash. -/
def Chain.findBlock (c : Chain) (h : Hash) : Option Block :=
  base.getAssoc c.blocks h

/-- `Blockchain::findTransaction` reduced to presence of the hash. -/
def Chain.findTransaction (c : Chain) (h : Hash) : Bool :=
  c.txHashes.contains h

/-- Modelled from the spec: `Blockchain::tryAddBlock` stores the block
under its hash, refreshes the top and indexes the contained transactions;
if the hash is already present it returns without a write (§4.3). -/
def Chain.tryAddBlock (orc : Oracle) (c : Chain) (b : Block) : Bool × Chain :=
  if (base.getAssoc c.blocks (orc.hashBlock b)).isSome then (false, c)
  else (true, ⟨base.setAssoc c.blocks (orc.hashBlock b) b, b,
    c.txHashes ++ b.transactions.map orc.hashTx⟩)

/-- The state owned by `lk::Core`: the block store, the canonical account
state, the pending pool and the tx-output map. -/
structure CoreSt where
  blockchain : Chain
  stateManager : StateMap
  pendingTransactions : List Transaction
  txOutputs : Outputs

/-- Modelled from the spec: `lk::calcCost` sums `amount + fee` per sender
(§4.5); represented as the per-address total, which is the map entry the
callers look up. -/
def calcCost (txs : List Transaction) (a : Address) : Nat :=
  ((txs.filter (fun t => t.fromAddress == a)).map (fun t => t.amount + t.fee)).sum

/-- Modelled from the spec: `StateManager::checkTransaction` holds iff the
sender balance covers `amount + fee` (§4.4). -/
def checkTransaction (s : StateMap) (tx : Transaction) : Bool :=
  decide (tx.amount + tx.fee ≤ getBalanceOf s tx.fromAddress)

/-- `Core::checkBlock` (core/core.cpp): the block timestamp must exceed the
top timestamp; the transaction count must be in range; the block hash must
be new; every transaction sender must have an account whose balance covers
that sender's aggregate cost within the block.  The source performs no
signature check. -/
def Core.checkBlock (cfg : base.Config) (orc : Oracle) (c : CoreSt) (block : Block) : Bool :=
  if block.timestamp ≤ c.blockchain.top.timestamp then false
  else if block.transactions.length = 0 ∨
      cfg.maxTransactionsInBlock < block.transactions.length then false
  else if (Chain.findBlock c.blockchain (orc.hashBlock block)).isSome then false
  else block.transactions.all fun tx =>
    hasAccount c.stateManager tx.fromAddress &&
      decide (calcCost block.transactions tx.fromAddress ≤
        getBalanceOf c.stateManager tx.fromAddress)

/-- `Core::tryAddBlock`: validate, store, drop the block's transactions
from the pending pool, then execute the block.  The `&&` of the source
short-circuits: a block failing `checkBlock` causes no store access. -/
def Core.tryAddBlock (cfg : base.Config) (orc : Oracle) (vm : Vm) (c : CoreSt)
    (b : Block) : Except base.Error (Bool × CoreSt) :=
  if Core.checkBlock cfg orc c b then
    match Chain.tryAddBlock orc c.blockchain b with
    | (false, _) => .ok (false, c)
    | (true, chain') =>
      let pending' := c.pendingTransactions.filter (fun tx => ! b.transactions.contains tx)
      match Core.applyBlockTransactionsE cfg orc vm c.stateManager c.txOutputs b with
      | .error e => .error e
      | .ok (s', outs', _) => .ok (true, ⟨chain', s', pending', outs'⟩)
  else .ok (false, c)

/-- `Core::addPendingTransaction` (core/core.cpp): signature check, then
duplicate-in-chain check (whose stored-status lookup always yields an
engaged optional), duplicate-in-pool check, the aggregate pending-cost
comparison as written in the source, the plain balance check, and finally
insertion into the pool. -/
def Core.addPendingTransaction (orc : Oracle) (c : CoreSt) (tx : Transaction) :
    TransactionStatus × CoreSt :=
  let transactionHash := orc.hashTx tx
  let transactionCost := tx.amount + tx.fee
  if ! Transaction.checkSign orc tx then
    let status : TransactionStatus := ⟨.BadSign, .None, tx.fee, ""⟩
    (status, { c with txOutputs := addTransactionOutput c.txOutputs transactionHash status })
  else if Chain.findTransaction c.blockchain transactionHash then
    match Core.getTransactionOutput c.txOutputs transactionHash with
    | some st => (st, c)
    | none =>
      let status : TransactionStatus := ⟨.Failed, .None, tx.fee, ""⟩
      (status, { c with txOutputs := addTransactionOutput c.txOutputs transactionHash status })
  else if c.pendingTransactions.contains tx then
    let status : TransactionStatus := ⟨.Pending, .None, tx.fee, ""⟩
    (status, { c with txOutputs := addTransactionOutput c.txOutputs transactionHash status })
  else if (c.pendingTransactions.any fun t => t.fromAddress == tx.fromAddress) &&
      hasAccount c.stateManager tx.fromAddress &&
      decide (calcCost c.pendingTransactions tx.fromAddress + transactionCost <
        getBalanceOf c.stateManager tx.fromAddress) then
    let status : TransactionStatus := ⟨.NotEnoughBalance, .None, 0, ""⟩
    (status, { c with txOutputs := addTransactionOutput c.txOutputs transactionHash status })
  else if ! checkTransaction c.stateManager tx then
    let status : TransactionStatus := ⟨.NotEnoughBalance, .None, 0, ""⟩
    (status, { c with txOutputs := addTransactionOutput c.txOutputs transactionHash status })
  else
    let status : TransactionStatus := ⟨.Pending, .None, tx.fee, ""⟩
    (status, { c with
      pendingTransactions := c.pendingTransactions ++ [tx]
      txOutputs := addTransactionOutput c.txOutputs transactionHash status })

/-- The total of all account balances of a state: the quantity the block
conservation property speaks about. -/
def sumBalances (s : StateMap) : Nat :=
  (s.map (fun p => p.2.balance)).sum

/-- A concrete oracle instance used to evaluate the core on specific
inputs: every transaction hashes to 100, contract data to 55, contract
addresses to 9, blocks to 77; any public key derives address 7 and
decrypts anything to the empty digest. -/
def testOracle : Oracle :=
  ⟨fun _ => 100, fun _ => [], fun _ => 55, fun _ _ => 9, fun _ => 7,
    fun _ _ => [], fun _ => 77, fun _ => "", fun _ => ""⟩

/-- A VM oracle that reverts leaving 30 gas and the snapshot untouched. -/
def vmRevert30 : Vm := fun _ s => (⟨.revert, 30, []⟩, s)

/-- A VM oracle that reverts consuming all gas and leaving the snapshot
untouched. -/
def vmRevertZero : Vm := fun _ s => (⟨.revert, 0, []⟩, s)

/-- A VM oracle that succeeds leaving no gas and, before returning, moves
the whole balance of account 1 to account 3 inside the snapshot through
the host callbacks — a balance-conserving interaction. -/
def vmDrain1 : Vm := fun _ s =>
  (⟨.success, 0, []⟩,
    match tryTransferMoney s 1 3 (getBalanceOf s 1) with
    | some s' => s'
    | none => s)

end lk

namespace base

theorem getAssoc_setAssoc_self {κ β : Type} [DecidableEq κ]
    (l : List (κ × β)) (k : κ) (v : β) :
    getAssoc (setAssoc l k v) k = some v := by
  induction l with
  | nil => simp [getAssoc, setAssoc]
  | cons hd tl ih =>
    by_cases h : k = hd.1
    · simp [getAssoc, setAssoc, h]
    · simpa [getAssoc, setAssoc, h] using ih

theorem getAssoc_setAssoc_ne {κ β : Type} [DecidableEq κ]
    (l : List (κ × β)) (k k' : κ) (v : β) (h : k' ≠ k) :
    getAssoc (setAssoc l k v) k' = getAssoc l k' := by
  induction l with
  | nil => simp [getAssoc, setAssoc, h]
  | cons hd tl ih =>
    by_cases hk : k = hd.1
    · subst hk
      simp [getAssoc, setAssoc, h]
    · by_cases hk' : k' = hd.1
      · simp [getAssoc, setAssoc, hk, hk']
      · simpa [getAssoc, setAssoc, hk, hk'] using ih

theorem sumOn_setAssoc {κ β : Type} [DecidableEq κ] (f : β → Nat)
    (l : List (κ × β)) (k : κ) (v : β) :
    ((setAssoc l k v).map (fun p => f p.2)).sum + ((getAssoc l k).map f).getD 0 =
    (l.map (fun p => f p.2)).sum + f v := by
  induction l with
  | nil => simp [getAssoc, setAssoc]
  | cons hd tl ih =>
    by_cases h : k = hd.1
    · simp only [setAssoc, getAssoc, if_pos h, List.map_cons, List.sum_cons,
        Option.map_some', Option.getD_some]
      omega
    · simp only [setAssoc, getAssoc, if_neg h, List.map_cons, List.sum_cons] at ih ⊢
      omega

theorem sum_setAssoc_fresh {κ β : Type} [DecidableEq κ] (f : β → Nat)
    (l : List (κ × β)) (k : κ) (v : β) (h : getAssoc l k = none) :
    ((setAssoc l k v).map (fun p => f p.2)).sum = (l.map (fun p => f p.2)).sum + f v := by
  have hs := sumOn_setAssoc f l k v
  rw [h] at hs
  simpa using hs

theorem length_natToBytesBE (w n : Nat) : (natToBytesBE w n).length = w := by
  induction w generalizing n with
  | zero => rfl
  | succ w ih => simp [natToBytesBE, ih]

theorem fromBytesBE_natToBytesBE (w n : Nat) (h : n < 256 ^ w) :
    fromBytesBE (natToBytesBE w n) = n := by
  induction w generalizing n with
  | zero =>
    interval_cases n
    rfl
  | succ w ih =>
    have hdiv : n / 256 < 256 ^ w := by
      apply Nat.div_lt_of_lt_mul
      rw [mul_comm]
      simpa [pow_succ] using h
    have hrec := ih (n / 256) hdiv
    simp only [natToBytesBE, fromBytesBE, List.foldl_append, List.foldl_cons, List.foldl_nil]
    simp only [fromBytesBE] at hrec
    rw [hrec]
    omega

theorem readBytes_append (k : Nat) (xs rest : Bytes) (h : xs.length = k) :
    readBytes k (xs ++ rest) = some (xs, rest) := by
  subst h
  simp [readBytes, List.take_left, List.drop_left]

theorem deserializeFixed_append (w n : Nat) (rest : Bytes) (h : n < 256 ^ w) :
    deserializeFixed w (serializeFixed w n ++ rest) = some (n, rest) := by
  simp [deserializeFixed, serializeFixed,
    readBytes_append w (natToBytesBE w n) rest (length_natToBytesBE w n),
    fromBytesBE_natToBytesBE w n h]

theorem deserializeBytesField_append (bs rest : Bytes) (h : bs.length < 2 ^ 32) :
    deserializeBytesField (serializeBytes bs ++ rest) = some (bs, rest) := by
  have h' : bs.length < 256 ^ 4 := by norm_num at h ⊢; omega
  simp only [deserializeBytesField, serializeBytes, List.append_assoc]
  rw [show natToBytesBE 4 bs.length ++ (bs ++ rest) =
    serializeFixed 4 bs.length ++ (bs ++ rest) from rfl]
  rw [deserializeFixed_append 4 bs.length (bs ++ rest) h']
  simp [readBytes_append bs.length bs rest rfl]

end base

namespace netproofs

theorem natToBytesBE_two_zero : base.natToBytesBE 2 0 = [0, 0] := rfl

theorem receive_send_wrapped (data : base.Bytes) (h : data.length = 65536) :
    net.Peer.receive (net.Peer.send data) = some (([] : base.Bytes), data) := by
  unfold net.Peer.send net.Peer.receive
  rw [h, Nat.mod_self, natToBytesBE_two_zero]
  rw [base.readBytes_append 2 [0, 0] data rfl]
  show Option.bind _ _ = _
  simp only [Option.bind_eq_bind, Option.some_bind]
  show base.readBytes (base.fromBytesBE [0, 0]) data = _
  rw [show base.fromBytesBE [0, 0] = 0 from rfl]
  simp [base.readBytes]

/-- Claim C9 counterexample: over a payload of 65536 bytes the length field
wraps to zero (`static_cast<std::uint16_t>`), so the sent bytes are not the
payload prefixed with its length, and the receiving side recovers the empty
payload instead of the original. -/
theorem c9_large_payload_truncated :
    net.Peer.receive (net.Peer.send (List.replicate 65536 7)) =
      some (([] : base.Bytes), List.replicate 65536 7) ∧
    ([] : base.Bytes) ≠ List.replicate 65536 7 := by
  constructor
  · exact receive_send_wrapped (List.replicate 65536 7) (List.length_replicate 65536 7)
  · intro h
    have hl := congrArg List.length h
    simp only [List.length_nil, List.length_replicate] at hl
    omega

/-- Claim C9 amended: for payloads shorter than 65536 bytes the sent bytes
are exactly the payload prefixed with its 16-bit big-endian length, and the
receiver, reading 2 length bytes and then that many payload bytes, recovers
the original payload. -/
theorem c9_framing_roundtrip (data : base.Bytes) (h : data.length < 65536) :
    net.Peer.send data = base.natToBytesBE 2 data.length ++ data ∧
    net.Peer.receive (net.Peer.send data) = some (data, ([] : base.Bytes)) := by
  have hsend : net.Peer.send data = base.natToBytesBE 2 data.length ++ data := by
    unfold net.Peer.send
    rw [Nat.mod_eq_of_lt h]
  refine ⟨hsend, ?_⟩
  rw [hsend]
  unfold net.Peer.receive
  rw [base.readBytes_append 2 (base.natToBytesBE 2 data.length) data
    (base.length_natToBytesBE 2 data.length)]
  show Option.bind _ _ = _
  simp only [Option.bind_eq_bind, Option.some_bind]
  show base.readBytes (base.fromBytesBE (base.natToBytesBE 2 data.length)) data = _
  rw [base.fromBytesBE_natToBytesBE 2 data.length (by norm_num; omega)]
  simp [base.readBytes]

/-- Witness for the amended C9 theorem at a concrete payload. -/
theorem c9_framing_roundtrip_witness :
    net.Peer.send [3, 5] = base.natToBytesBE 2 2 ++ [3, 5] ∧
    net.Peer.receive (net.Peer.send [3, 5]) = some ([3, 5], ([] : base.Bytes)) := by
  have h := c9_framing_roundtrip [3, 5] (by decide)
  simpa using h

end netproofs

namespace bc

theorem DatabaseManager.addBlock_present (bd : StoredBlock → base.Bytes)
    (m : DatabaseManager) (h : base.Bytes) (b : StoredBlock)
    (hp : (base.getAssoc m.db (dbKey DataType.BLOCK h)).isSome) :
    DatabaseManager.addBlock bd m h b = m := by
  unfold DatabaseManager.addBlock
  rw [if_pos hp]

theorem dbKey_block_ne_prev (h h' : base.Bytes) :
    dbKey DataType.BLOCK h ≠ dbKey DataType.PREVIOUS_BLOCK_HASH h' := by
  simp [dbKey, DataType.BLOCK, DataType.PREVIOUS_BLOCK_HASH]

theorem dbKey_block_ne_last (h : base.Bytes) :
    dbKey DataType.BLOCK h ≠ LAST_BLOCK_HASH_KEY := by
  simp [dbKey, DataType.BLOCK, DataType.SYSTEM, LAST_BLOCK_HASH_KEY]

theorem dbKey_prev_ne_last (h : base.Bytes) :
    dbKey DataType.PREVIOUS_BLOCK_HASH h ≠ LAST_BLOCK_HASH_KEY := by
  simp [dbKey, DataType.PREVIOUS_BLOCK_HASH, DataType.SYSTEM, LAST_BLOCK_HASH_KEY]

/-- Claim C5 counterexample: on a fresh store, `addBlock` writes exactly
three entries — not five — and none of them carries the depth-index prefix
0x04 or the transaction-index prefix 0x05 of the specified key layout, so
no lookup of a block hash by depth is possible against this store. -/
theorem c5_addBlock_writes_three_entries :
    ((DatabaseManager.addBlock (fun _ => [9]) ⟨[], List.replicate 32 0⟩ [7] ⟨[5]⟩).db.length = 3 ∧
      ∀ p ∈ (DatabaseManager.addBlock (fun _ => [9]) ⟨[], List.replicate 32 0⟩ [7] ⟨[5]⟩).db,
        p.1.head? ≠ some 4 ∧ p.1.head? ≠ some 5) ∧
    (3 : Nat) ≠ 5 := by
  constructor
  · constructor
    · rfl
    · decide
  · decide

/-- Claim C5 amended: `addBlock` writes exactly the three entries its
`DataType` enum provides — the block body keyed by hash, the parent link
keyed by hash, and the updated last-block hash — leaves every other key
unchanged, refreshes the cached top hash, and is idempotent; in particular
the stored parent link of the hash equals the block's previous hash.  The
source maintains no depth index and no transaction index. -/
theorem c5_addBlock_amended (bd : StoredBlock → base.Bytes) (m : DatabaseManager)
    (h : base.Bytes) (b : StoredBlock)
    (hfresh : base.getAssoc m.db (dbKey DataType.BLOCK h) = none) :
    base.getAssoc (DatabaseManager.addBlock bd m h b).db (dbKey DataType.BLOCK h) =
      some (bd b) ∧
    base.getAssoc (DatabaseManager.addBlock bd m h b).db (dbKey DataType.PREVIOUS_BLOCK_HASH h) =
      some b.prevHash ∧
    base.getAssoc (DatabaseManager.addBlock bd m h b).db LAST_BLOCK_HASH_KEY = some h ∧
    (DatabaseManager.addBlock bd m h b).lastBlockHash = h ∧
    (∀ k, k ≠ dbKey DataType.BLOCK h → k ≠ dbKey DataType.PREVIOUS_BLOCK_HASH h →
      k ≠ LAST_BLOCK_HASH_KEY →
      base.getAssoc (DatabaseManager.addBlock bd m h b).db k = base.getAssoc m.db k) ∧
    DatabaseManager.addBlock bd (DatabaseManager.addBlock bd m h b) h b =
      DatabaseManager.addBlock bd m h b := by
  have hnot : ¬ (base.getAssoc m.db (dbKey DataType.BLOCK h)).isSome := by
    simp [hfresh]
  have hbody : base.getAssoc (DatabaseManager.addBlock bd m h b).db
      (dbKey DataType.BLOCK h) = some (bd b) := by
    unfold DatabaseManager.addBlock
    rw [if_neg hnot]
    simp only
    rw [base.getAssoc_setAssoc_ne _ _ _ _ (dbKey_block_ne_last h),
      base.getAssoc_setAssoc_ne _ _ _ _ (dbKey_block_ne_prev h h),
      base.getAssoc_setAssoc_self]
  refine ⟨hbody, ?_, ?_, ?_, ?_, ?_⟩
  · unfold DatabaseManager.addBlock
    rw [if_neg hnot]
    simp only
    rw [base.getAssoc_setAssoc_ne _ _ _ _ (dbKey_prev_ne_last h),
      base.getAssoc_setAssoc_self]
  · unfold DatabaseManager.addBlock
    rw [if_neg hnot]
    simp only
    rw [base.getAssoc_setAssoc_self]
  · unfold DatabaseManager.addBlock
    rw [if_neg hnot]
  · intro k hk2 hk3 hkl
    unfold DatabaseManager.addBlock
    rw [if_neg hnot]
    simp only
    rw [base.getAssoc_setAssoc_ne _ _ _ _ hkl,
      base.getAssoc_setAssoc_ne _ _ _ _ hk3,
      base.getAssoc_setAssoc_ne _ _ _ _ hk2]
  · exact DatabaseManager.addBlock_present bd _ h b (by rw [hbody]; rfl)

/-- Witness for the amended C5 theorem on a concrete fresh store. -/
theorem c5_addBlock_amended_witness :
    base.getAssoc (DatabaseManager.addBlock (fun _ => [9]) ⟨[], []⟩ [7] ⟨[5]⟩).db
      (dbKey DataType.PREVIOUS_BLOCK_HASH [7]) = some ([5] : base.Bytes) := by
  exact (c5_addBlock_amended (fun _ => [9]) ⟨[], []⟩ [7] ⟨[5]⟩ rfl).2.1

/-- Claim C7 counterexample: the `bc::Transaction` constructor rejects a
zero amount unconditionally — there is no data field whose non-emptiness
could permit it. -/
theorem c7_zero_amount_rejected :
    Transaction.create [1] [2] 0 5 3 none = .error base.Error.logicError := rfl

/-- Claim C7 amended: constructing a transaction with amount zero always
raises `LogicError`, and any non-zero amount is accepted; the type carries
no data field, so a zero-amount pure contract call is not representable. -/
theorem c7_create_ok_iff (f t : base.Bytes) (amount ts fee : Nat) (sg : Sign) :
    (Transaction.create f t amount ts fee sg = .error base.Error.logicError ↔ amount = 0) ∧
    (amount ≠ 0 → Transaction.create f t amount ts fee sg = .ok ⟨f, t, amount, ts, fee, sg⟩) := by
  constructor
  · constructor
    · intro h
      by_contra hne
      simp [Transaction.create, hne] at h
    · intro h
      simp [Transaction.create, h]
  · intro h
    simp [Transaction.create, h]

/-- Witness for the amended C7 theorem: a transaction with amount 5 is
constructed successfully. -/
theorem c7_create_ok_iff_witness :
    Transaction.create [1] [2] 5 0 0 none = .ok ⟨[1], [2], 5, 0, 0, none⟩ :=
  (c7_create_ok_iff [1] [2] 5 0 0 none).2 (by decide)

theorem Sign.deserialize_append (sg : Sign) (rest : base.Bytes)
    (hsig : ∀ d : SignData, sg = some d →
      d.senderPublicKey.length < 2 ^ 32 ∧ d.rsaEncryptedHash.length < 2 ^ 32) :
    Sign.deserialize (Sign.serialize sg ++ rest) = some (sg, rest) := by
  match sg with
  | none => simp [Sign.serialize, Sign.deserialize]
  | some d =>
    obtain ⟨hpk, heh⟩ := hsig d rfl
    simp only [Sign.serialize, List.cons_append, List.append_assoc, List.singleton_append,
      List.nil_append]
    simp only [Sign.deserialize]
    rw [if_pos (by decide)]
    rw [base.deserializeBytesField_append d.senderPublicKey _ hpk]
    simp only [Option.bind_eq_bind, Option.some_bind]
    rw [base.deserializeBytesField_append d.rsaEncryptedHash rest heh]
    simp

/-- Claim C8: serializing a transaction (with a null or non-null signature)
and deserializing the bytes yields the transaction back, with the Sign
codec writing a 1-byte tag — 0 for null, 1 for present followed by the
public key and the encrypted hash.  The bounds keep each field inside its
declared fixed width. -/
theorem c8_serialize_roundtrip (tx : Transaction) (rest : base.Bytes)
    (hamount : tx.amount ≠ 0) (ha : tx.amount < 256 ^ 32) (hf : tx.fee < 256 ^ 32)
    (ht : tx.timestamp < 256 ^ 4)
    (hfrom : tx.fromAddress.length < 2 ^ 32) (hto : tx.toAddress.length < 2 ^ 32)
    (hsig : ∀ d : SignData, tx.sign = some d →
      d.senderPublicKey.length < 2 ^ 32 ∧ d.rsaEncryptedHash.length < 2 ^ 32) :
    Transaction.deserialize (Transaction.serialize tx ++ rest) = some (tx, rest) ∧
    Sign.serialize none = [0] ∧
    (∀ d : SignData, Sign.serialize (some d) =
      1 :: (base.serializeBytes d.senderPublicKey ++ base.serializeBytes d.rsaEncryptedHash)) := by
  refine ⟨?_, rfl, fun d => by simp [Sign.serialize]⟩
  obtain ⟨f, t, a, ts, fee, sg⟩ := tx
  simp only at hamount ha hf ht hfrom hto hsig
  simp only [Transaction.serialize, Transaction.serializeHeader, List.append_assoc]
  unfold Transaction.deserialize
  rw [base.deserializeBytesField_append f _ hfrom]
  show Option.bind _ _ = _
  simp only [Option.bind_eq_bind, Option.some_bind]
  rw [base.deserializeBytesField_append t _ hto]
  simp only [Option.some_bind]
  rw [base.deserializeFixed_append 32 a _ ha]
  simp only [Option.some_bind]
  rw [base.deserializeFixed_append 4 ts _ ht]
  simp only [Option.some_bind]
  rw [base.deserializeFixed_append 32 fee _ hf]
  simp only [Option.some_bind]
  rw [Sign.deserialize_append sg rest hsig]
  simp only [Option.some_bind]
  simp [Transaction.create, hamount]

/-- Witness for the C8 round-trip at a concrete signed transaction. -/
theorem c8_serialize_roundtrip_witness :
    Transaction.deserialize (Transaction.serialize ⟨[1], [2], 5, 7, 3, some ⟨[4], [6]⟩⟩ ++ []) =
      some (⟨[1], [2], 5, 7, 3, some ⟨[4], [6]⟩⟩, []) := by
  exact (c8_serialize_roundtrip ⟨[1], [2], 5, 7, 3, some ⟨[4], [6]⟩⟩ []
    (by decide) (by norm_num) (by norm_num) (by norm_num) (by norm_num) (by norm_num)
    (by intro d hd; cases hd; constructor <;> norm_num)).1

end bc

namespace lk

/-- Claim C10: `getTransactionOutput` never reports absence — a hash with
no recorded status yields the engaged `Failed/None/0` status, and the
optional result is engaged for every query. -/
theorem c10_getTransactionOutput_never_absent (outs : Outputs) (h : Hash)
    (habs : base.getAssoc outs h = none) :
    Core.getTransactionOutput outs h =
      some ⟨StatusCode.Failed, ActionType.None, 0, ""⟩ ∧
    ∀ (outs' : Outputs) (h' : Hash), (Core.getTransactionOutput outs' h').isSome := by
  constructor
  · unfold Core.getTransactionOutput
    rw [habs]
  · intro outs' h'
    unfold Core.getTransactionOutput
    cases base.getAssoc outs' h' <;> rfl

/-- Witness for the C10 theorem on the empty output map. -/
theorem c10_getTransactionOutput_never_absent_witness :
    Core.getTransactionOutput [] 0 = some ⟨StatusCode.Failed, ActionType.None, 0, ""⟩ :=
  (c10_getTransactionOutput_never_absent [] 0 rfl).1

/-- Claim C1: on a contract-creation transaction with fee 100 whose VM
execution returns REVERT with 30 gas left, the executor debits the sender
(account 1, balance 1000) by the remaining gas 30 — leaving 970 — while
the coinbase (account 2) is credited with 70; the specified sender debit of
`fee - gas_left = 70` would leave 930 instead. -/
theorem c1_revert_charges_remaining_gas :
    (Core.tryPerformTransactionE testOracle vmRevert30
        [(1, ⟨.CLIENT, 1000, [], [], []⟩)] []
        ⟨1, NULL_ADDRESS, 5, 100, 0, [1], none⟩
        ⟨1, 0, 10, 2, []⟩).map
      (fun r => (getBalanceOf r.1 1, getBalanceOf r.1 2, r.2.2)) =
      .ok (970, 70, TxOutcome.charged 100 30) ∧
    (970 : Nat) ≠ 1000 - (100 - 30) := by
  exact ⟨rfl, by decide⟩

/-- Claim C2: the aggregate pending-cost comparison is inverted.  With
balance 1000 and one pending transaction of cost 10, a new transaction of
cost 10 — easily affordable — is rejected NotEnoughBalance; with a pending
cost of 995, a new transaction of cost 10 — an overspend — is admitted as
Pending. -/
theorem c2_pending_cost_check_inverted :
    ((Core.addPendingTransaction testOracle
        ⟨⟨[], ⟨0, 0, 5, 2, []⟩, []⟩, [(7, ⟨.CLIENT, 1000, [], [], []⟩)],
          [⟨7, 8, 5, 5, 0, [], none⟩], []⟩
        ⟨7, 8, 7, 3, 0, [], some ⟨[1], [2]⟩⟩).1.code = StatusCode.NotEnoughBalance ∧
      calcCost [⟨7, 8, 5, 5, 0, [], none⟩] 7 + (7 + 3) ≤ 1000) ∧
    ((Core.addPendingTransaction testOracle
        ⟨⟨[], ⟨0, 0, 5, 2, []⟩, []⟩, [(7, ⟨.CLIENT, 1000, [], [], []⟩)],
          [⟨7, 8, 990, 5, 0, [], none⟩], []⟩
        ⟨7, 8, 7, 3, 0, [], some ⟨[1], [2]⟩⟩).1.code = StatusCode.Pending ∧
      1000 < calcCost [⟨7, 8, 990, 5, 0, [], none⟩] 7 + (7 + 3)) := by
  exact ⟨⟨rfl, by decide⟩, ⟨rfl, by decide⟩⟩

/-- Claim C3: `checkBlock` performs no signature verification — a block
whose only transaction has a null signature (so `checkSign` is false)
passes every check and is accepted. -/
theorem c3_checkBlock_accepts_bad_signature :
    Core.checkBlock ⟨100, 50⟩ testOracle
        ⟨⟨[], ⟨0, 0, 5, 2, []⟩, []⟩, [(7, ⟨.CLIENT, 1000, [], [], []⟩)], [], []⟩
        ⟨1, 0, 6, 2, [⟨7, 8, 5, 1, 0, [], none⟩]⟩ = true ∧
    Transaction.checkSign testOracle ⟨7, 8, 5, 1, 0, [], none⟩ = false := by
  exact ⟨rfl, rfl⟩

/-- Claim C6 counterexample: presenting an already-stored block again makes
`tryAddBlock` return false — not true — leaving the core state unchanged
(here the block is its own chain top, so the timestamp check already
fails). -/
theorem c6_duplicate_block_returns_false :
    Core.tryAddBlock ⟨100, 50⟩ testOracle vmRevert30
        ⟨⟨[(77, ⟨1, 0, 6, 2, [⟨7, 8, 5, 1, 0, [], none⟩]⟩)],
            ⟨1, 0, 6, 2, [⟨7, 8, 5, 1, 0, [], none⟩]⟩, [100]⟩,
          [(7, ⟨.CLIENT, 1000, [], [], []⟩)], [], []⟩
        ⟨1, 0, 6, 2, [⟨7, 8, 5, 1, 0, [], none⟩]⟩ =
      .ok (false,
        ⟨⟨[(77, ⟨1, 0, 6, 2, [⟨7, 8, 5, 1, 0, [], none⟩]⟩)],
            ⟨1, 0, 6, 2, [⟨7, 8, 5, 1, 0, [], none⟩]⟩, [100]⟩,
          [(7, ⟨.CLIENT, 1000, [], [], []⟩)], [], []⟩) ∧
    false ≠ true := by
  exact ⟨rfl, by decide⟩

/-- Claim C6 amended: presenting a block whose hash is already stored makes
`tryAddBlock` return false with the core state unchanged: `checkBlock`
rejects it (at the latest by the duplicate-hash check), the short-circuit
prevents any store access, and no transaction is re-executed. -/
theorem c6_duplicate_block_amended (cfg : base.Config) (orc : Oracle) (vm : Vm)
    (c : CoreSt) (b : Block)
    (hpresent : (base.getAssoc c.blockchain.blocks (orc.hashBlock b)).isSome) :
    Core.tryAddBlock cfg orc vm c b = .ok (false, c) := by
  have hcb : Core.checkBlock cfg orc c b = false := by
    unfold Core.checkBlock
    by_cases h1 : b.timestamp ≤ c.blockchain.top.timestamp
    · rw [if_pos h1]
    · rw [if_neg h1]
      by_cases h2 : b.transactions.length = 0 ∨
          cfg.maxTransactionsInBlock < b.transactions.length
      · rw [if_pos h2]
      · rw [if_neg h2, if_pos]
        exact hpresent
  unfold Core.tryAddBlock
  rw [hcb]
  simp

/-- Witness for the amended C6 theorem: re-adding the stored block of the
counterexample scenario, with the hypothesis discharged by evaluation. -/
theorem c6_duplicate_block_amended_witness :
    Core.tryAddBlock ⟨100, 50⟩ testOracle vmRevert30
        ⟨⟨[(77, ⟨1, 0, 9, 2, []⟩)], ⟨1, 0, 9, 2, []⟩, []⟩, [], [], []⟩
        ⟨1, 0, 9, 2, []⟩ =
      .ok (false, ⟨⟨[(77, ⟨1, 0, 9, 2, []⟩)], ⟨1, 0, 9, 2, []⟩, []⟩, [], [], []⟩) :=
  c6_duplicate_block_amended ⟨100, 50⟩ testOracle vmRevert30
    ⟨⟨[(77, ⟨1, 0, 9, 2, []⟩)], ⟨1, 0, 9, 2, []⟩, []⟩, [], [], []⟩
    ⟨1, 0, 9, 2, []⟩ (by decide)

theorem getAccount_balance_matches (s : StateMap) (a : Address) :
    ((base.getAssoc s a).map (fun st : AccountState => st.balance)).getD 0 =
      (getAccount s a).balance := by
  unfold getAccount
  cases base.getAssoc s a <;> simp [defaultAccount]

theorem sumBalances_modifyAccount (s : StateMap) (a : Address)
    (f : AccountState → AccountState) :
    sumBalances (modifyAccount s a f) + (getAccount s a).balance =
      sumBalances s + (f (getAccount s a)).balance := by
  have h := base.sumOn_setAssoc (fun st : AccountState => st.balance) s a
    (f (getAccount s a))
  rw [getAccount_balance_matches] at h
  unfold sumBalances modifyAccount
  omega

theorem getBalanceOf_modifyAccount (s : StateMap) (a b : Address)
    (f : AccountState → AccountState) :
    getBalanceOf (modifyAccount s a f) b =
      if b = a then (f (getAccount s a)).balance else getBalanceOf s b := by
  by_cases hb : b = a
  · subst hb
    simp only [getBalanceOf, getAccount, modifyAccount]
    rw [base.getAssoc_setAssoc_self]
    simp
  · simp only [getBalanceOf, getAccount, modifyAccount]
    rw [base.getAssoc_setAssoc_ne _ _ _ _ hb]
    simp [hb]

theorem sumBalances_addBalance (s : StateMap) (a : Address) (v : Nat) :
    sumBalances (addBalance s a v) = sumBalances s + v := by
  have h := sumBalances_modifyAccount s a
    (fun st => { st with balance := st.balance + v })
  simp only at h
  unfold addBalance
  omega

theorem getBalanceOf_addBalance (s : StateMap) (a b : Address) (v : Nat) :
    getBalanceOf (addBalance s a v) b =
      getBalanceOf s b + (if b = a then v else 0) := by
  unfold addBalance
  rw [getBalanceOf_modifyAccount]
  by_cases hb : b = a
  · subst hb
    simp [getBalanceOf]
  · simp [hb]

theorem subBalance_of_le (s : StateMap) (a : Address) (v : Nat)
    (h : v ≤ getBalanceOf s a) :
    subBalance s a v =
      .ok (modifyAccount s a (fun st => { st with balance := st.balance - v })) := by
  unfold subBalance
  rw [if_pos (show v ≤ (getAccount s a).balance from h)]

theorem subBalance_of_lt (s : StateMap) (a : Address) (v : Nat)
    (h : getBalanceOf s a < v) :
    subBalance s a v = .error .underflow := by
  unfold subBalance
  unfold getBalanceOf at h
  rw [if_neg (by omega)]

theorem subBalance_ok_le (s s' : StateMap) (a : Address) (v : Nat)
    (h : subBalance s a v = .ok s') : v ≤ getBalanceOf s a := by
  by_contra hlt
  rw [subBalance_of_lt s a v (by omega)] at h
  exact Except.noConfusion h

theorem subBalance_ok_sum (s s' : StateMap) (a : Address) (v : Nat)
    (h : subBalance s a v = .ok s') : sumBalances s' + v = sumBalances s := by
  have hle := subBalance_ok_le s s' a v h
  rw [subBalance_of_le s a v hle] at h
  injection h with h2
  subst h2
  have hsum := sumBalances_modifyAccount s a
    (fun st => { st with balance := st.balance - v })
  simp only at hsum
  unfold getBalanceOf at hle
  omega

theorem subBalance_ok_balance (s s' : StateMap) (a b : Address) (v : Nat)
    (h : subBalance s a v = .ok s') :
    getBalanceOf s' b + (if b = a then v else 0) = getBalanceOf s b := by
  have hle := subBalance_ok_le s s' a v h
  rw [subBalance_of_le s a v hle] at h
  injection h with h2
  subst h2
  rw [getBalanceOf_modifyAccount]
  unfold getBalanceOf at hle ⊢
  split_ifs with hb
  · subst hb
    simp only
    omega
  · omega

theorem sumBalances_addTransactionHash (s : StateMap) (a : Address) (h : Hash) :
    sumBalances (addTransactionHash s a h) = sumBalances s := by
  have hs := sumBalances_modifyAccount s a
    (fun st => { st with txHashes := st.txHashes ++ [h] })
  simp only at hs
  unfold addTransactionHash
  omega

theorem getBalanceOf_addTransactionHash (s : StateMap) (a b : Address) (h : Hash) :
    getBalanceOf (addTransactionHash s a h) b = getBalanceOf s b := by
  unfold addTransactionHash
  rw [getBalanceOf_modifyAccount]
  split_ifs with hb
  · subst hb
    simp [getBalanceOf]
  · rfl

theorem sumBalances_setRuntimeCode (s : StateMap) (a : Address) (code : base.Bytes) :
    sumBalances (setRuntimeCode s a code) = sumBalances s := by
  have hs := sumBalances_modifyAccount s a (fun st => { st with runtimeCode := code })
  simp only at hs
  unfold setRuntimeCode
  omega

theorem getAssoc_none_of_not_hasAccount (s : StateMap) (a : Address)
    (h : ¬ hasAccount s a) : base.getAssoc s a = none := by
  unfold hasAccount at h
  cases hg : base.getAssoc s a
  · rfl
  · rw [hg] at h
    simp at h

theorem sumBalances_touchAccount (s : StateMap) (a : Address) :
    sumBalances (touchAccount s a) = sumBalances s := by
  unfold touchAccount
  split_ifs with h
  · rfl
  · unfold sumBalances
    rw [base.sum_setAssoc_fresh (fun st : AccountState => st.balance) s a defaultAccount
      (getAssoc_none_of_not_hasAccount s a h)]
    simp [defaultAccount]

theorem getBalanceOf_touchAccount (s : StateMap) (a b : Address) :
    getBalanceOf (touchAccount s a) b = getBalanceOf s b := by
  unfold touchAccount
  split_ifs with h
  · rfl
  · have hnone := getAssoc_none_of_not_hasAccount s a h
    by_cases hb : b = a
    · subst hb
      unfold getBalanceOf getAccount
      rw [base.getAssoc_setAssoc_self, hnone]
      simp [defaultAccount]
    · unfold getBalanceOf getAccount
      rw [base.getAssoc_setAssoc_ne _ _ _ _ hb]

theorem tryTransferMoney_some_sum (s s' : StateMap) (f t : Address) (v : Nat)
    (h : tryTransferMoney s f t v = some s') : sumBalances s' = sumBalances s := by
  unfold tryTransferMoney at h
  cases hsub : subBalance s f v with
  | error e =>
    rw [hsub] at h
    exact Option.noConfusion h
  | ok s1 =>
    rw [hsub] at h
    injection h with h2
    subst h2
    have h1 := subBalance_ok_sum s s1 f v hsub
    rw [sumBalances_addBalance]
    omega

theorem tryTransferMoney_some_balance (s s' : StateMap) (f t b : Address) (v : Nat)
    (h : tryTransferMoney s f t v = some s') :
    getBalanceOf s b ≤ getBalanceOf s' b + (if b = f then v else 0) := by
  unfold tryTransferMoney at h
  cases hsub : subBalance s f v with
  | error e =>
    rw [hsub] at h
    exact Option.noConfusion h
  | ok s1 =>
    rw [hsub] at h
    injection h with h2
    subst h2
    have h1 := subBalance_ok_balance s s1 f b v hsub
    rw [getBalanceOf_addBalance]
    split_ifs at h1 ⊢ <;> omega

theorem createContractAccount_ok (mkAddr : Address → Hash → Address)
    (s s' : StateMap) (creator : Address) (codeHash : Hash) (addr : Address)
    (h : createContractAccount mkAddr s creator codeHash = .ok (addr, s')) :
    sumBalances s' = sumBalances s ∧ ∀ b, getBalanceOf s' b = getBalanceOf s b := by
  unfold createContractAccount at h
  by_cases hhas : hasAccount s (mkAddr creator codeHash)
  · rw [if_pos hhas] at h
    exact Except.noConfusion h
  · rw [if_neg hhas] at h
    injection h with h2
    injection h2 with ha hs
    subst ha
    subst hs
    have hnone := getAssoc_none_of_not_hasAccount s (mkAddr creator codeHash) hhas
    constructor
    · unfold sumBalances
      rw [base.sum_setAssoc_fresh (fun st : AccountState => st.balance) s
        (mkAddr creator codeHash) { defaultAccount with accountType := .CONTRACT } hnone]
      simp [defaultAccount]
    · intro b
      by_cases hb : b = mkAddr creator codeHash
      · subst hb
        unfold getBalanceOf getAccount
        rw [base.getAssoc_setAssoc_self, hnone]
        simp [defaultAccount]
      · unfold getBalanceOf getAccount
        rw [base.getAssoc_setAssoc_ne _ _ _ _ hb]


theorem getBalanceOf_setRuntimeCode (s : StateMap) (a b : Address) (code : base.Bytes) :
    getBalanceOf (setRuntimeCode s a code) b = getBalanceOf s b := by
  unfold setRuntimeCode
  rw [getBalanceOf_modifyAccount]
  split_ifs with hb
  · subst hb
    simp [getBalanceOf]
  · rfl

theorem tryPerform_sum (orc : Oracle) (vm : Vm) (s : StateMap) (outs : Outputs)
    (tx : Transaction) (blk : Block)
    (hpure : ∀ c st, (vm c st).2 = st) (hgas : ∀ c st, (vm c st).1.gasLeft ≤ c.gas)
    (s' : StateMap) (outs' : Outputs) (eff : TxOutcome)
    (h : Core.tryPerformTransactionE orc vm s outs tx blk = .ok (s', outs', eff)) :
    (sumBalances s' : Int) = sumBalances s + eff.delta := by
  have hs0 : sumBalances (addTransactionHash s tx.fromAddress (orc.hashTx tx)) = sumBalances s :=
    sumBalances_addTransactionHash s tx.fromAddress (orc.hashTx tx)
  have hs1 : sumBalances (touchAccount (addTransactionHash s tx.fromAddress (orc.hashTx tx))
      tx.toAddress) = sumBalances s := by
    rw [sumBalances_touchAccount, hs0]
  unfold Core.tryPerformTransactionE at h
  dsimp only at h
  split at h
  · -- contract creation branch
    split at h
    · -- fee subtraction underflowed and was caught
      simp only [Except.ok.injEq, Prod.mk.injEq] at h
      obtain ⟨hs, houts, heff⟩ := h
      subst hs; subst heff
      simp only [TxOutcome.delta]
      rw [hs0]
      simp
    · next txm1 hsub =>
      split at h
      · -- contract account collision, caught as Failed
        simp only [Except.ok.injEq, Prod.mk.injEq] at h
        obtain ⟨hs, houts, heff⟩ := h
        subst hs; subst heff
        simp only [TxOutcome.delta]
        rw [hs0]
        simp
      · next contractAddress txm2 hcc =>
        split at h
        · -- value transfer to the new contract failed
          simp only [Except.ok.injEq, Prod.mk.injEq] at h
          obtain ⟨hs, houts, heff⟩ := h
          subst hs; subst heff
          simp only [TxOutcome.delta]
          rw [hs0]
          simp
        · next txm3 htr =>
          split at h
          · -- VM success: snapshot committed
            simp only [Except.ok.injEq, Prod.mk.injEq] at h
            obtain ⟨hs, houts, heff⟩ := h
            subst hs; subst heff
            simp only [TxOutcome.delta]
            have h1 := subBalance_ok_sum _ _ _ _ hsub
            have h2 := (createContractAccount_ok _ _ _ _ _ _ hcc).1
            have h3 := tryTransferMoney_some_sum _ _ _ _ _ htr
            have hp := hpure ⟨tx.fee, tx.fromAddress, contractAddress, tx.amount, [], tx.data⟩ txm3
            rw [hp, sumBalances_addBalance, sumBalances_addBalance, sumBalances_setRuntimeCode]
            have hg : (vm ⟨tx.fee, tx.fromAddress, contractAddress, tx.amount, [], tx.data⟩
              txm3).1.gasLeft ≤ tx.fee := hgas _ txm3
            omega
          · -- VM revert
            split at h
            · -- canonical gas charge underflowed, caught as Failed
              simp only [Except.ok.injEq, Prod.mk.injEq] at h
              obtain ⟨hs, houts, heff⟩ := h
              subst hs; subst heff
              simp only [TxOutcome.delta]
              rw [hs0]
              simp
            · next s1 hsubg =>
              simp only [Except.ok.injEq, Prod.mk.injEq] at h
              obtain ⟨hs, houts, heff⟩ := h
              subst hs; subst heff
              simp only [TxOutcome.delta]
              have h1 := subBalance_ok_sum _ _ _ _ hsubg
              have hg : (vm ⟨tx.fee, tx.fromAddress, contractAddress, tx.amount, [], tx.data⟩
                txm3).1.gasLeft ≤ tx.fee := hgas _ txm3
              rw [sumBalances_addBalance]
              omega
          · -- VM unknown code
            split at h
            · simp only [Except.ok.injEq, Prod.mk.injEq] at h
              obtain ⟨hs, houts, heff⟩ := h
              subst hs; subst heff
              simp only [TxOutcome.delta]
              rw [hs0]
              simp
            · next s1 hsubg =>
              simp only [Except.ok.injEq, Prod.mk.injEq] at h
              obtain ⟨hs, houts, heff⟩ := h
              subst hs; subst heff
              simp only [TxOutcome.delta]
              have h1 := subBalance_ok_sum _ _ _ _ hsubg
              have hg : (vm ⟨tx.fee, tx.fromAddress, contractAddress, tx.amount, [], tx.data⟩
                txm3).1.gasLeft ≤ tx.fee := hgas _ txm3
              rw [sumBalances_addBalance]
              omega
  · -- destination is a concrete address
    split at h
    · -- fee subtraction underflowed: the error escapes, contradiction
      exact Except.noConfusion h
    · next txm1 hsub =>
      split at h
      · -- destination account is a contract
        split at h
        · -- empty call data
          simp only [Except.ok.injEq, Prod.mk.injEq] at h
          obtain ⟨hs, houts, heff⟩ := h
          subst hs; subst heff
          simp only [TxOutcome.delta]
          rw [hs1]
          simp
        · split at h
          · -- value transfer to the contract failed
            simp only [Except.ok.injEq, Prod.mk.injEq] at h
            obtain ⟨hs, houts, heff⟩ := h
            subst hs; subst heff
            simp only [TxOutcome.delta]
            rw [hs1]
            simp
          · next txm2 htr =>
            have h3 : sumBalances txm2 = sumBalances txm1 := by
              split at htr
              · exact tryTransferMoney_some_sum _ _ _ _ _ htr
              · injection htr with h4
                rw [h4]
            split at h
            · -- VM success: snapshot committed
              simp only [Except.ok.injEq, Prod.mk.injEq] at h
              obtain ⟨hs, houts, heff⟩ := h
              subst hs; subst heff
              simp only [TxOutcome.delta]
              have h1 := subBalance_ok_sum _ _ _ _ hsub
              have hp := hpure ⟨tx.fee, tx.fromAddress, tx.toAddress, tx.amount, tx.data,
                (getAccount txm2 tx.toAddress).runtimeCode⟩ txm2
              rw [hp, sumBalances_addBalance, sumBalances_addBalance]
              have hg : (vm ⟨tx.fee, tx.fromAddress, tx.toAddress, tx.amount, tx.data,
                (getAccount txm2 tx.toAddress).runtimeCode⟩ txm2).1.gasLeft ≤ tx.fee :=
                hgas _ txm2
              omega
            · -- VM revert
              split at h
              · simp only [Except.ok.injEq, Prod.mk.injEq] at h
                obtain ⟨hs, houts, heff⟩ := h
                subst hs; subst heff
                simp only [TxOutcome.delta]
                rw [hs1]
                simp
              · next s2 hsubg =>
                simp only [Except.ok.injEq, Prod.mk.injEq] at h
                obtain ⟨hs, houts, heff⟩ := h
                subst hs; subst heff
                simp only [TxOutcome.delta]
                have h1 := subBalance_ok_sum _ _ _ _ hsubg
                have hg : (vm ⟨tx.fee, tx.fromAddress, tx.toAddress, tx.amount, tx.data,
                  (getAccount txm2 tx.toAddress).runtimeCode⟩ txm2).1.gasLeft ≤ tx.fee :=
                  hgas _ txm2
                rw [sumBalances_addBalance]
                omega
            · -- VM unknown code
              split at h
              · simp only [Except.ok.injEq, Prod.mk.injEq] at h
                obtain ⟨hs, houts, heff⟩ := h
                subst hs; subst heff
                simp only [TxOutcome.delta]
                rw [hs1]
                simp
              · next s2 hsubg =>
                simp only [Except.ok.injEq, Prod.mk.injEq] at h
                obtain ⟨hs, houts, heff⟩ := h
                subst hs; subst heff
                simp only [TxOutcome.delta]
                have h1 := subBalance_ok_sum _ _ _ _ hsubg
                have hg : (vm ⟨tx.fee, tx.fromAddress, tx.toAddress, tx.amount, tx.data,
                  (getAccount txm2 tx.toAddress).runtimeCode⟩ txm2).1.gasLeft ≤ tx.fee :=
                  hgas _ txm2
                rw [sumBalances_addBalance]
                omega
      · -- plain transfer
        split at h
        · -- transfer failed
          simp only [Except.ok.injEq, Prod.mk.injEq] at h
          obtain ⟨hs, houts, heff⟩ := h
          subst hs; subst heff
          simp only [TxOutcome.delta]
          rw [hs1]
          simp
        · next txm2 htr =>
          simp only [Except.ok.injEq, Prod.mk.injEq] at h
          obtain ⟨hs, houts, heff⟩ := h
          subst hs; subst heff
          simp only [TxOutcome.delta]
          have h1 := subBalance_ok_sum _ _ _ _ hsub
          have h3 := tryTransferMoney_some_sum _ _ _ _ _ htr
          rw [sumBalances_addBalance]
          omega


theorem tryPerform_ok (orc : Oracle) (vm : Vm) (s : StateMap) (outs : Outputs)
    (tx : Transaction) (blk : Block)
    (hpure : ∀ c st, (vm c st).2 = st) (hgas : ∀ c st, (vm c st).1.gasLeft ≤ c.gas)
    (hbal : tx.amount + tx.fee ≤ getBalanceOf s tx.fromAddress) :
    ∃ s' outs' eff, Core.tryPerformTransactionE orc vm s outs tx blk = .ok (s', outs', eff) ∧
      eff ≠ .subFailed ∧
      ∀ a, getBalanceOf s a ≤ getBalanceOf s' a +
        (if a = tx.fromAddress then tx.amount + tx.fee else 0) := by
  have hball : ∀ a, getBalanceOf (addTransactionHash s tx.fromAddress (orc.hashTx tx)) a =
      getBalanceOf s a := fun a => getBalanceOf_addTransactionHash s tx.fromAddress a
    (orc.hashTx tx)
  have hbal0 : tx.amount + tx.fee ≤
      getBalanceOf (addTransactionHash s tx.fromAddress (orc.hashTx tx)) tx.fromAddress := by
    rw [hball]
    exact hbal
  have hfee : tx.fee ≤
      getBalanceOf (addTransactionHash s tx.fromAddress (orc.hashTx tx)) tx.fromAddress := by
    omega
  have hsub := subBalance_of_le _ tx.fromAddress tx.fee hfee
  have hsubbal := fun a => subBalance_ok_balance _ _ tx.fromAddress a tx.fee hsub
  unfold Core.tryPerformTransactionE
  dsimp only
  by_cases hnull : tx.toAddress = NULL_ADDRESS
  · simp only [if_pos hnull, hsub]
    cases hcc : createContractAccount orc.mkContractAddress
        (modifyAccount (addTransactionHash s tx.fromAddress (orc.hashTx tx)) tx.fromAddress
          (fun st => { st with balance := st.balance - tx.fee }))
        tx.fromAddress (orc.sha256data tx.data) with
    | error e =>
      simp only [hcc]
      refine ⟨_, _, _, rfl, fun hc => TxOutcome.noConfusion hc, fun a => ?_⟩
      rw [hball a]
      exact Nat.le_add_right _ _
    | ok p =>
      obtain ⟨contractAddress, txm2⟩ := p
      simp only [hcc]
      have hccbal := (createContractAccount_ok _ _ _ _ _ _ hcc).2
      cases htr : tryTransferMoney txm2 tx.fromAddress contractAddress tx.amount with
      | none =>
        simp only [htr]
        refine ⟨_, _, _, rfl, fun hc => TxOutcome.noConfusion hc, fun a => ?_⟩
        rw [hball a]
        exact Nat.le_add_right _ _
      | some txm3 =>
        simp only [htr]
        have htrbal := fun a => tryTransferMoney_some_balance _ _ tx.fromAddress
          contractAddress a tx.amount htr
        cases hsc : (vm ⟨tx.fee, tx.fromAddress, contractAddress, tx.amount, [], tx.data⟩
            txm3).1.statusCode with
        | success =>
          simp only [hsc]
          refine ⟨_, _, _, rfl, fun hc => TxOutcome.noConfusion hc, fun a => ?_⟩
          rw [hpure ⟨tx.fee, tx.fromAddress, contractAddress, tx.amount, [], tx.data⟩ txm3]
          rw [getBalanceOf_addBalance, getBalanceOf_addBalance, getBalanceOf_setRuntimeCode]
          have e1 := hsubbal a
          have e2 := hccbal a
          have e3 := htrbal a
          have hb := hball a
          split_ifs at e1 e3 ⊢ <;> omega
        | revert =>
          simp only [hsc]
          have hg : (vm ⟨tx.fee, tx.fromAddress, contractAddress, tx.amount, [], tx.data⟩
              txm3).1.gasLeft ≤ tx.fee := hgas _ txm3
          have hsubg := subBalance_of_le
            (addTransactionHash s tx.fromAddress (orc.hashTx tx)) tx.fromAddress
            ((vm ⟨tx.fee, tx.fromAddress, contractAddress, tx.amount, [], tx.data⟩
              txm3).1.gasLeft) (by omega)
          simp only [hsubg]
          refine ⟨_, _, _, rfl, fun hc => TxOutcome.noConfusion hc, fun a => ?_⟩
          have e1 := subBalance_ok_balance _ _ tx.fromAddress a _ hsubg
          rw [getBalanceOf_addBalance]
          have hb := hball a
          split_ifs at e1 ⊢ <;> omega
        | other =>
          simp only [hsc]
          have hg : (vm ⟨tx.fee, tx.fromAddress, contractAddress, tx.amount, [], tx.data⟩
              txm3).1.gasLeft ≤ tx.fee := hgas _ txm3
          have hsubg := subBalance_of_le
            (addTransactionHash s tx.fromAddress (orc.hashTx tx)) tx.fromAddress
            ((vm ⟨tx.fee, tx.fromAddress, contractAddress, tx.amount, [], tx.data⟩
              txm3).1.gasLeft) (by omega)
          simp only [hsubg]
          refine ⟨_, _, _, rfl, fun hc => TxOutcome.noConfusion hc, fun a => ?_⟩
          have e1 := subBalance_ok_balance _ _ tx.fromAddress a _ hsubg
          rw [getBalanceOf_addBalance]
          have hb := hball a
          split_ifs at e1 ⊢ <;> omega
  · simp only [if_neg hnull, hsub]
    have htoball : ∀ a, getBalanceOf (touchAccount
        (addTransactionHash s tx.fromAddress (orc.hashTx tx)) tx.toAddress) a =
        getBalanceOf s a := fun a => by
      rw [getBalanceOf_touchAccount, hball a]
    by_cases hctr : (getAccount (modifyAccount
        (addTransactionHash s tx.fromAddress (orc.hashTx tx)) tx.fromAddress
        (fun st => { st with balance := st.balance - tx.fee }))
        tx.toAddress).accountType = AccountType.CONTRACT
    · simp only [if_pos hctr]
      by_cases hdata : tx.data.isEmpty
      · simp only [if_pos hdata]
        refine ⟨_, _, _, rfl, fun hc => TxOutcome.noConfusion hc, fun a => ?_⟩
        rw [htoball a]
        exact Nat.le_add_right _ _
      · simp only [if_neg hdata]
        cases htr : (if 0 < tx.amount then
            tryTransferMoney (modifyAccount
              (addTransactionHash s tx.fromAddress (orc.hashTx tx)) tx.fromAddress
              (fun st => { st with balance := st.balance - tx.fee }))
              tx.fromAddress tx.toAddress tx.amount
          else some (modifyAccount
              (addTransactionHash s tx.fromAddress (orc.hashTx tx)) tx.fromAddress
              (fun st => { st with balance := st.balance - tx.fee }))) with
        | none =>
          simp only [htr]
          refine ⟨_, _, _, rfl, fun hc => TxOutcome.noConfusion hc, fun a => ?_⟩
          rw [htoball a]
          exact Nat.le_add_right _ _
        | some txm2 =>
          simp only [htr]
          have htrbal : ∀ a, getBalanceOf (modifyAccount
              (addTransactionHash s tx.fromAddress (orc.hashTx tx)) tx.fromAddress
              (fun st => { st with balance := st.balance - tx.fee })) a ≤
              getBalanceOf txm2 a + (if a = tx.fromAddress then tx.amount else 0) := by
            intro a
            split at htr
            · exact tryTransferMoney_some_balance _ _ tx.fromAddress tx.toAddress a
                tx.amount htr
            · injection htr with h4
              rw [h4]
              exact Nat.le_add_right _ _
          cases hsc : (vm ⟨tx.fee, tx.fromAddress, tx.toAddress, tx.amount, tx.data,
              (getAccount txm2 tx.toAddress).runtimeCode⟩ txm2).1.statusCode with
          | success =>
            simp only [hsc]
            refine ⟨_, _, _, rfl, fun hc => TxOutcome.noConfusion hc, fun a => ?_⟩
            rw [hpure ⟨tx.fee, tx.fromAddress, tx.toAddress, tx.amount, tx.data,
              (getAccount txm2 tx.toAddress).runtimeCode⟩ txm2]
            rw [getBalanceOf_addBalance, getBalanceOf_addBalance]
            have e1 := hsubbal a
            have e3 := htrbal a
            have hb := hball a
            split_ifs at e1 e3 ⊢ <;> omega
          | revert =>
            simp only [hsc]
            have hg : (vm ⟨tx.fee, tx.fromAddress, tx.toAddress, tx.amount, tx.data,
                (getAccount txm2 tx.toAddress).runtimeCode⟩ txm2).1.gasLeft ≤ tx.fee :=
              hgas _ txm2
            have hfee1 : tx.fee ≤ getBalanceOf (touchAccount
                (addTransactionHash s tx.fromAddress (orc.hashTx tx)) tx.toAddress)
                tx.fromAddress := by
              rw [htoball tx.fromAddress]
              omega
            have hsubg := subBalance_of_le
              (touchAccount (addTransactionHash s tx.fromAddress (orc.hashTx tx))
                tx.toAddress) tx.fromAddress
              ((vm ⟨tx.fee, tx.fromAddress, tx.toAddress, tx.amount, tx.data,
                (getAccount txm2 tx.toAddress).runtimeCode⟩ txm2).1.gasLeft) (by omega)
            simp only [hsubg]
            refine ⟨_, _, _, rfl, fun hc => TxOutcome.noConfusion hc, fun a => ?_⟩
            have e1 := subBalance_ok_balance _ _ tx.fromAddress a _ hsubg
            rw [getBalanceOf_addBalance]
            have hb := htoball a
            split_ifs at e1 ⊢ <;> omega
          | other =>
            simp only [hsc]
            have hg : (vm ⟨tx.fee, tx.fromAddress, tx.toAddress, tx.amount, tx.data,
                (getAccount txm2 tx.toAddress).runtimeCode⟩ txm2).1.gasLeft ≤ tx.fee :=
              hgas _ txm2
            have hfee1 : tx.fee ≤ getBalanceOf (touchAccount
                (addTransactionHash s tx.fromAddress (orc.hashTx tx)) tx.toAddress)
                tx.fromAddress := by
              rw [htoball tx.fromAddress]
              omega
            have hsubg := subBalance_of_le
              (touchAccount (addTransactionHash s tx.fromAddress (orc.hashTx tx))
                tx.toAddress) tx.fromAddress
              ((vm ⟨tx.fee, tx.fromAddress, tx.toAddress, tx.amount, tx.data,
                (getAccount txm2 tx.toAddress).runtimeCode⟩ txm2).1.gasLeft) (by omega)
            simp only [hsubg]
            refine ⟨_, _, _, rfl, fun hc => TxOutcome.noConfusion hc, fun a => ?_⟩
            have e1 := subBalance_ok_balance _ _ tx.fromAddress a _ hsubg
            rw [getBalanceOf_addBalance]
            have hb := htoball a
            split_ifs at e1 ⊢ <;> omega
    · simp only [if_neg hctr]
      cases htr : tryTransferMoney (modifyAccount
          (addTransactionHash s tx.fromAddress (orc.hashTx tx)) tx.fromAddress
          (fun st => { st with balance := st.balance - tx.fee }))
          tx.fromAddress tx.toAddress tx.amount with
      | none =>
        simp only [htr]
        refine ⟨_, _, _, rfl, fun hc => TxOutcome.noConfusion hc, fun a => ?_⟩
        rw [htoball a]
        exact Nat.le_add_right _ _
      | some txm2 =>
        simp only [htr]
        refine ⟨_, _, _, rfl, fun hc => TxOutcome.noConfusion hc, fun a => ?_⟩
        have e1 := hsubbal a
        have e3 := tryTransferMoney_some_balance _ _ tx.fromAddress tx.toAddress a
          tx.amount htr
        rw [getBalanceOf_addBalance]
        have hb := hball a
        split_ifs at e1 e3 ⊢ <;> omega


theorem calcCost_cons (tx : Transaction) (rest : List Transaction) (a : Address) :
    calcCost (tx :: rest) a =
      (if tx.fromAddress = a then tx.amount + tx.fee else 0) + calcCost rest a := by
  by_cases h : tx.fromAddress = a
  · simp [calcCost, List.filter_cons, h]
  · simp [calcCost, List.filter_cons, h]

theorem calcCost_zero_of_not_sender (txs : List Transaction) (a : Address)
    (h : ∀ t ∈ txs, t.fromAddress ≠ a) : calcCost txs a = 0 := by
  induction txs with
  | nil => rfl
  | cons tx rest ih =>
    rw [calcCost_cons, if_neg (h tx (List.mem_cons_self tx rest))]
    simp only [Nat.zero_add]
    exact ih (fun t ht => h t (List.mem_cons_of_mem tx ht))

theorem checkBlock_senders (cfg : base.Config) (orc : Oracle) (c : CoreSt) (blk : Block)
    (hcb : Core.checkBlock cfg orc c blk = true) :
    ∀ tx ∈ blk.transactions,
      calcCost blk.transactions tx.fromAddress ≤
        getBalanceOf c.stateManager tx.fromAddress := by
  unfold Core.checkBlock at hcb
  split_ifs at hcb
  intro tx hmem
  have h := List.all_eq_true.mp hcb tx hmem
  rw [Bool.and_eq_true, decide_eq_true_eq] at h
  exact h.2

theorem checkBlock_invariant (cfg : base.Config) (orc : Oracle) (c : CoreSt) (blk : Block)
    (hcb : Core.checkBlock cfg orc c blk = true) (a : Address) :
    calcCost blk.transactions a ≤ getBalanceOf c.stateManager a := by
  by_cases hmem : ∃ tx ∈ blk.transactions, tx.fromAddress = a
  · obtain ⟨tx, htx, rfl⟩ := hmem
    exact checkBlock_senders cfg orc c blk hcb tx htx
  · push_neg at hmem
    rw [calcCost_zero_of_not_sender blk.transactions a hmem]
    exact Nat.zero_le _

theorem performAll_sum (orc : Oracle) (vm : Vm) (blk : Block)
    (hpure : ∀ c st, (vm c st).2 = st) (hgas : ∀ c st, (vm c st).1.gasLeft ≤ c.gas) :
    ∀ (txs : List Transaction) (s : StateMap) (outs : Outputs)
      (s' : StateMap) (outs' : Outputs) (effs : List TxOutcome),
      Core.performAll orc vm blk s outs txs = .ok (s', outs', effs) →
      (sumBalances s' : Int) = sumBalances s + (effs.map TxOutcome.delta).sum := by
  intro txs
  induction txs with
  | nil =>
    intro s outs s' outs' effs h
    unfold Core.performAll at h
    simp only [Except.ok.injEq, Prod.mk.injEq] at h
    obtain ⟨hs, houts, heffs⟩ := h
    subst hs; subst heffs
    simp
  | cons tx rest ih =>
    intro s outs s' outs' effs h
    unfold Core.performAll at h
    cases he : Core.tryPerformTransactionE orc vm s outs tx blk with
    | error e =>
      rw [he] at h
      exact Except.noConfusion h
    | ok r =>
      obtain ⟨s1, outs1, eff⟩ := r
      simp only [he] at h
      cases hr : Core.performAll orc vm blk s1 outs1 rest with
      | error e =>
        rw [hr] at h
        exact Except.noConfusion h
      | ok r2 =>
        obtain ⟨s2, outs2, effs2⟩ := r2
        simp only [hr, Except.ok.injEq, Prod.mk.injEq] at h
        obtain ⟨hs, houts, heffs⟩ := h
        subst hs; subst heffs
        have h1 := tryPerform_sum orc vm s outs tx blk hpure hgas s1 outs1 eff he
        have h2 := ih s1 outs1 s2 outs2 effs2 hr
        simp only [List.map_cons, List.sum_cons]
        omega

theorem performAll_safe (orc : Oracle) (vm : Vm) (blk : Block)
    (hpure : ∀ c st, (vm c st).2 = st) (hgas : ∀ c st, (vm c st).1.gasLeft ≤ c.gas) :
    ∀ (txs : List Transaction) (s : StateMap) (outs : Outputs),
      (∀ a, calcCost txs a ≤ getBalanceOf s a) →
      ∃ s' outs' effs, Core.performAll orc vm blk s outs txs = .ok (s', outs', effs) ∧
        ∀ e ∈ effs, e ≠ TxOutcome.subFailed := by
  intro txs
  induction txs with
  | nil =>
    intro s outs hinv
    exact ⟨s, outs, [], rfl, by simp⟩
  | cons tx rest ih =>
    intro s outs hinv
    have hbal : tx.amount + tx.fee ≤ getBalanceOf s tx.fromAddress := by
      have h := hinv tx.fromAddress
      rw [calcCost_cons, if_pos rfl] at h
      omega
    obtain ⟨s1, outs1, eff, he, heff, hbb⟩ :=
      tryPerform_ok orc vm s outs tx blk hpure hgas hbal
    have hinv1 : ∀ a, calcCost rest a ≤ getBalanceOf s1 a := by
      intro a
      have h1 := hinv a
      rw [calcCost_cons] at h1
      have h2 := hbb a
      by_cases haf : a = tx.fromAddress
      · subst haf
        rw [if_pos rfl] at h1 h2
        omega
      · rw [if_neg (fun hh => haf hh.symm)] at h1
        rw [if_neg haf] at h2
        omega
    obtain ⟨s2, outs2, effs2, hr, hsafe⟩ := ih s1 outs1 hinv1
    refine ⟨s2, outs2, eff :: effs2, ?_, ?_⟩
    · unfold Core.performAll
      simp only [he, hr]
    · intro e hme
      rcases List.mem_cons.mp hme with rfl | hmem
      · exact heff
      · exact hsafe e hmem

/-- Claim C4 amended: for a VM that leaves the speculative snapshot
unchanged and returns at most the supplied gas, a completed block
application changes the total of all balances by BC_EMISSION_VALUE plus,
for every transaction whose VM outcome was REVERT or an unknown code,
`fee - 2 * gas_left` (the canonical state loses `gas_left` at the sender
and gains `fee - gas_left` at the coinbase) — not minus the reverted fees;
and when the block moreover passes `checkBlock`, the application completes
and no balance subtraction lacks funds at any intermediate step. -/
theorem c4_block_sum_amended (cfg : base.Config) (orc : Oracle) (vm : Vm) (blk : Block)
    (s : StateMap) (outs : Outputs)
    (hpure : ∀ c st, (vm c st).2 = st) (hgas : ∀ c st, (vm c st).1.gasLeft ≤ c.gas) :
    (∀ s' outs' effs,
      Core.applyBlockTransactionsE cfg orc vm s outs blk = .ok (s', outs', effs) →
      (sumBalances s' : Int) =
        sumBalances s + cfg.emissionValue + (effs.map TxOutcome.delta).sum) ∧
    (∀ c : CoreSt, c.stateManager = s → Core.checkBlock cfg orc c blk = true →
      ∃ s' outs' effs,
        Core.applyBlockTransactionsE cfg orc vm s outs blk = .ok (s', outs', effs) ∧
        ∀ e ∈ effs, e ≠ TxOutcome.subFailed) := by
  constructor
  · intro s' outs' effs h
    unfold Core.applyBlockTransactionsE at h
    have hsum := performAll_sum orc vm blk hpure hgas blk.transactions _ outs s' outs' effs h
    rw [sumBalances_addBalance] at hsum
    omega
  · intro c hst hcb
    unfold Core.applyBlockTransactionsE
    apply performAll_safe orc vm blk hpure hgas blk.transactions _ outs
    intro a
    have hi := checkBlock_invariant cfg orc c blk hcb a
    rw [hst] at hi
    rw [getBalanceOf_addBalance]
    omega

/-- Witness for the amended C4 theorem: a one-transaction block that
reverts consuming the whole fee, on a funded sender, under a snapshot-pure
VM. -/
theorem c4_block_sum_amended_witness :
    ∃ s' outs' effs,
      Core.applyBlockTransactionsE ⟨100, 50⟩ testOracle vmRevertZero
        [(7, ⟨.CLIENT, 1000, [], [], []⟩)] [] ⟨1, 0, 6, 2, [⟨7, 8, 5, 1, 0, [], none⟩]⟩ =
        .ok (s', outs', effs) ∧
      ∀ e ∈ effs, e ≠ TxOutcome.subFailed :=
  (c4_block_sum_amended ⟨100, 50⟩ testOracle vmRevertZero
      ⟨1, 0, 6, 2, [⟨7, 8, 5, 1, 0, [], none⟩]⟩
      [(7, ⟨.CLIENT, 1000, [], [], []⟩)] []
      (fun _ _ => rfl) (fun c st => Nat.zero_le _)).2
    ⟨⟨[], ⟨0, 0, 5, 2, []⟩, []⟩, [(7, ⟨.CLIENT, 1000, [], [], []⟩)], [], []⟩
    rfl (by decide)

/-- Claim C4 counterexample.  First: a block whose only transaction is a
contract creation reverting with 30 of its 100 fee left, on sender balance
1000 with emission 50, ends with balance total 1090 — the claimed
`before + emission - reverted fees` is 950.  Second: a block passing
`checkBlock` whose first transaction commits a VM interaction that moved
the sender money inside the snapshot (conserving the total) makes the fee
subtraction of the second transaction underflow — the claimed absence of
intermediate underflows fails as well. -/
theorem c4_sum_formula_fails :
    ((Core.applyBlockTransactionsE ⟨100, 50⟩ testOracle vmRevert30
        [(1, ⟨.CLIENT, 1000, [], [], []⟩)] []
        ⟨1, 0, 10, 2, [⟨1, 0, 5, 100, 0, [1], none⟩]⟩).map
      (fun r => sumBalances r.1) = .ok 1090 ∧
      (1090 : Nat) ≠ 1000 + 50 - 100) ∧
    (Core.checkBlock ⟨100, 50⟩ testOracle
        ⟨⟨[], ⟨0, 0, 5, 2, []⟩, []⟩, [(1, ⟨.CLIENT, 100, [], [], []⟩)], [], []⟩
        ⟨1, 0, 6, 2, [⟨1, 0, 0, 10, 0, [1], none⟩, ⟨1, 0, 0, 1, 0, [1], none⟩]⟩ = true ∧
      (Core.applyBlockTransactionsE ⟨100, 50⟩ testOracle vmDrain1
        [(1, ⟨.CLIENT, 100, [], [], []⟩)] []
        ⟨1, 0, 6, 2, [⟨1, 0, 0, 10, 0, [1], none⟩, ⟨1, 0, 0, 1, 0, [1], none⟩]⟩).map
      (fun r => r.2.2) = .ok [TxOutcome.committed, TxOutcome.subFailed]) := by
  exact ⟨⟨rfl, by decide⟩, ⟨rfl, rfl⟩⟩

end lk
